/-
Verification of `netbox_fix_json.py` against its specification.

Shallow embedding of the core logic:
  * `unwrap_actual_json`  (src/netbox_fix_json.py lines 7-31)
  * `fix_netbox_json_field` (src/netbox_fix_json.py lines 33-78)

Modelling conventions:
  * A Python JSON-domain value is `JVal`.  A Python `str` is modelled
    semantically by what `json.loads` does with its text: either the text is
    valid JSON encoding exactly one value (`JVal.strEnc v`), or it is not
    valid JSON (`JVal.strInvalid raw`, which carries the raw text; the empty
    string is `JVal.strInvalid ""` since `""` is not valid JSON).
  * `json.loads` on a valid-JSON string returns the encoded value, on an
    invalid string raises `json.decoder.JSONDecodeError`, and on any
    non-`str` argument raises `TypeError`.  This is `json_loads` below.
  * Python exceptions that can escape the modelled code are `PyExn`.
    `pynetbox.core.query.RequestError` is always caught inside
    `fix_netbox_json_field` (lines 69-75), so it is modelled by the
    per-record flag `Record.updateOk` instead of an exception.
  * A record exposes only `custom_fields.get(custom_field_name)` for the one
    field name the run is about, and `update`.  `Record.fieldValue` is the
    value `custom_fields.get` returns, with Python `None` (absent key or a
    stored null) rendered as `JVal.null`.
  * The number of `json.loads` calls and the list of attempted
    `Record.update` calls are carried alongside the Python return values as
    an effect trace (`UnwrapOut.loads`, the write-event list), so that
    "no decode attempted" / "no write attempted" claims are statable.
-/
import Mathlib

set_option autoImplicit false

/-- Python runtime types that the program distinguishes with `isinstance`.
Numbers (`int`/`float`) are collapsed into one type: the program never
separates them. -/
inductive PyType where
  | noneT
  | boolT
  | numT
  | strT
  | listT
  | dictT
  deriving DecidableEq, Repr

/-- A Python value in the JSON domain.  String contents are modelled
semantically: `strEnc v` is a string whose text is valid JSON encoding `v`;
`strInvalid raw` is a string whose text is not valid JSON. -/
inductive JVal where
  | null
  | boolean (b : Bool)
  | number (n : Int)
  | strEnc (v : JVal)
  | strInvalid (raw : String)
  | arr (elems : List JVal)
  | obj (fields : List (String × JVal))

/-- The Python runtime type of a value (`type(v)` / `isinstance` dispatch). -/
def typeOf : JVal → PyType
  | .null => .noneT
  | .boolean _ => .boolT
  | .number _ => .numT
  | .strEnc _ => .strT
  | .strInvalid _ => .strT
  | .arr _ => .listT
  | .obj _ => .dictT

/-- `isinstance(v, ts)` for a tuple `ts` of the types in `PyType`.
(The Python subclass subtlety `bool <= int` does not arise for the type
tuples this program uses, which never contain `int`.) -/
def isinstanceOf (v : JVal) (ts : List PyType) : Bool :=
  ts.contains (typeOf v)

/-- Exceptions that can escape the modelled code. -/
inductive PyExn where
  | jsonDecodeError
  | typeError
  deriving DecidableEq, Repr

/-- `json.loads`: decodes a valid-JSON string, raises `JSONDecodeError` on an
invalid string, raises `TypeError` on any non-string argument. -/
def json_loads : JVal → Except PyExn JVal
  | .strEnc v => .ok v
  | .strInvalid _ => .error .jsonDecodeError
  | _ => .error .typeError

/-- Python `v == ""`: true exactly for the empty string.  A `strEnc` string
is never empty because the empty string is not valid JSON. -/
def isEmptyString : JVal → Bool
  | .strInvalid raw => raw == ""
  | _ => false

/-- The termination test of the unwrap loop (line 26):
`expected_type is not None and isinstance(data, expected_type)
 or expected_type is None and not isinstance(data, str)`. -/
def termPred (expected_type : Option (List PyType)) (d : JVal) : Bool :=
  match expected_type with
  | some ts => isinstanceOf d ts
  | none => !(typeOf d == PyType.strT)

/-- Result of `unwrap_actual_json`: the Python return pair `(status, data)`
(`data` is Python `None`, i.e. `JVal.null`, on failure), plus the number of
`json.loads` invocations performed (effect trace, not a Python return
value). -/
structure UnwrapOut where
  status : Bool
  data : JVal
  loads : Nat

/-- The `while iteration < max_iterations` loop of `unwrap_actual_json`
(lines 17-31), with the remaining iteration budget as fuel.
`json.decoder.JSONDecodeError` is caught (lines 22-25) and turned into the
return `(False, None)`; a `TypeError` from `json.loads` is NOT caught and
propagates.  Exhausting the budget returns `(False, None)` (line 31). -/
def unwrapLoop (expected_type : Option (List PyType)) :
    Nat → JVal → Except PyExn UnwrapOut
  | 0, _ => .ok ⟨false, JVal.null, 0⟩
  | fuel + 1, data =>
    match json_loads data with
    | .error .jsonDecodeError => .ok ⟨false, JVal.null, 1⟩
    | .error .typeError => .error .typeError
    | .ok d =>
      if termPred expected_type d then
        .ok ⟨true, d, 1⟩
      else
        match unwrapLoop expected_type fuel d with
        | .ok out => .ok ⟨out.status, out.data, out.loads + 1⟩
        | .error e => .error e

/-- `unwrap_actual_json(input_str, expected_type, max_iterations)`
(lines 7-31).  `max_iterations` is a Python `int`; the loop runs
`max(0, max_iterations)` passes. -/
def unwrap_actual_json (input : JVal) (expected_type : Option (List PyType))
    (max_iterations : Int) : Except PyExn UnwrapOut :=
  unwrapLoop expected_type max_iterations.toNat input

/-- A NetBox record, restricted to what `fix_netbox_json_field` reads:
`fieldValue` is `nbobj.custom_fields.get(custom_field_name)` (Python `None`
rendered as `JVal.null`); `updateOk` tells whether `nbobj.update(...)`
succeeds or raises `pynetbox.core.query.RequestError`; `id` is the record's
identity for bookkeeping. -/
structure Record where
  id : Nat
  fieldValue : JVal
  updateOk : Bool

/-- Phase 1 of `fix_netbox_json_field` (lines 47-54): the candidate list
`nbobj_with_bad_value`.  A record is skipped when its value `is None` or
`isinstance(json_value, expected_types)`; otherwise it is appended, in input
order. -/
def nbobj_with_bad_value (recordset : List Record)
    (expected_types : List PyType) : List Record :=
  recordset.filter fun r =>
    !(typeOf r.fieldValue == PyType.noneT
      || isinstanceOf r.fieldValue expected_types)

/-- The fix computation for one candidate (lines 57-63): the empty-string
special case when `replace_empty_string_with_null` is set (status `True`,
value `None`, no decode), otherwise `unwrap_actual_json` called with
`max_iterations` only — `expected_type` is left at its default `None`. -/
def computeFix (replace_empty_string_with_null : Bool) (max_iterations : Int)
    (v : JVal) : Except PyExn UnwrapOut :=
  if isEmptyString v && replace_empty_string_with_null then
    .ok ⟨true, JVal.null, 0⟩
  else
    unwrap_actual_json v none max_iterations

/-- One pass of the Phase-2 loop body for a candidate record (lines 56-77).
Returns `(true, r2, w)` when the record is appended to `nbobj_updated`,
`(false, r2, w)` when appended to `nbobj_not_updated`; `r2` carries the
persisted field value after a successful write; `w` is the attempted
`Record.update` call (attempted even when the transport rejects it). -/
def recordStep (max_iterations : Int) (make_changes : Bool)
    (replace_empty_string_with_null : Bool) (r : Record) :
    Except PyExn (Bool × Record × Option (Nat × JVal)) :=
  match computeFix replace_empty_string_with_null max_iterations r.fieldValue with
  | .error e => .error e
  | .ok out =>
    if out.status then
      if make_changes then
        if r.updateOk then
          .ok (true, { r with fieldValue := out.data }, some (r.id, out.data))
        else
          .ok (false, r, some (r.id, out.data))
      else
        .ok (true, r, none)
    else
      .ok (false, r, none)

/-- Prepend an optional write event to the write trace. -/
def prependWrite (w : Option (Nat × JVal)) (ws : List (Nat × JVal)) :
    List (Nat × JVal) :=
  match w with
  | none => ws
  | some e => e :: ws

/-- The Phase-2 loop of `fix_netbox_json_field` (lines 56-77) over the
candidate list: builds `nbobj_updated` and `nbobj_not_updated` in input
order, plus the trace of attempted writes.  An uncaught exception in a loop
body aborts the whole run (nothing is returned). -/
def processCandidates (max_iterations : Int) (make_changes : Bool)
    (replace_empty_string_with_null : Bool) :
    List Record → Except PyExn (List Record × List Record × List (Nat × JVal))
  | [] => .ok ([], [], [])
  | r :: rest =>
    match recordStep max_iterations make_changes replace_empty_string_with_null r with
    | .error e => .error e
    | .ok (b, r2, w) =>
      match processCandidates max_iterations make_changes
          replace_empty_string_with_null rest with
      | .error e => .error e
      | .ok (u, nu, ws) =>
        if b then .ok (r2 :: u, nu, prependWrite w ws)
        else .ok (u, r2 :: nu, prependWrite w ws)

/-- `fix_netbox_json_field(recordset, custom_field_name, max_iterations,
make_changes, expected_types, replace_empty_string_with_null)`
(lines 33-78).  The `custom_field_name` argument is implicit in the model:
`Record.fieldValue` already is the value of that field.  Returns the Python
pair `(nbobj_updated, nbobj_not_updated)` plus the write trace. -/
def fix_netbox_json_field (recordset : List Record) (max_iterations : Int)
    (make_changes : Bool) (expected_types : List PyType)
    (replace_empty_string_with_null : Bool) :
    Except PyExn (List Record × List Record × List (Nat × JVal)) :=
  processCandidates max_iterations make_changes replace_empty_string_with_null
    (nbobj_with_bad_value recordset expected_types)

/-- The default `expected_types` tuple `(list, dict, type(None))` (line 33). -/
def defaultExpectedTypes : List PyType := [PyType.listT, PyType.dictT, PyType.noneT]

/-- A string that is a JSON value string-encoded `n` times. -/
def nestEnc : Nat → JVal → JVal
  | 0, v => v
  | n + 1, v => JVal.strEnc (nestEnc n v)

/-- The records of Phase 1 that are skipped (well-typed or `None`): the
complement of `nbobj_with_bad_value` within the record set, in input
order. -/
def recordsSkipped (recordset : List Record) (expected_types : List PyType) :
    List Record :=
  recordset.filter fun r =>
    typeOf r.fieldValue == PyType.noneT
      || isinstanceOf r.fieldValue expected_types

/-- Whether the Phase-2 fix computation for a value succeeds with status
`True` (and no exception). -/
def fixSucceeds (replace_empty_string_with_null : Bool) (max_iterations : Int)
    (r : Record) : Bool :=
  match computeFix replace_empty_string_with_null max_iterations r.fieldValue with
  | .ok out => out.status
  | .error _ => false

/-! ## Helper lemmas -/

theorem json_loads_of_not_string {v : JVal} (h : ¬ typeOf v = PyType.strT) :
    json_loads v = .error PyExn.typeError := by
  cases v <;> simp_all [typeOf, json_loads]

theorem termPred_none_true {v : JVal} (h : ¬ typeOf v = PyType.strT) :
    termPred none v = true := by
  simp [termPred, h]

theorem termPred_none_false {v : JVal} (h : typeOf v = PyType.strT) :
    termPred none v = false := by
  simp [termPred, h]

theorem unwrapLoop_zero (et : Option (List PyType)) (v : JVal) :
    unwrapLoop et 0 v = .ok ⟨false, JVal.null, 0⟩ := rfl

/-- With `expected_type = None`, whenever the loop reports success the value
it returns is not a string. -/
theorem unwrapLoop_none_status_not_string :
    ∀ (f : Nat) {v : JVal} {out : UnwrapOut},
      unwrapLoop none f v = .ok out → out.status = true →
      ¬ typeOf out.data = PyType.strT := by
  intro f
  induction f with
  | zero =>
    intro v out h hs
    rw [unwrapLoop_zero] at h
    cases h
    simp at hs
  | succ f ih =>
    intro v out h hs
    cases v with
    | strEnc w =>
      simp only [unwrapLoop, json_loads] at h
      by_cases ht : termPred none w = true
      · rw [if_pos ht] at h
        cases h
        simp only [termPred] at ht
        simpa using ht
      · rw [if_neg ht] at h
        cases hrec : unwrapLoop none f w with
        | error e => rw [hrec] at h; cases h
        | ok inner =>
          rw [hrec] at h
          cases h
          simpa using ih hrec (by simpa using hs)
    | strInvalid s =>
      simp only [unwrapLoop, json_loads] at h
      cases h
      simp at hs
    | null => simp only [unwrapLoop, json_loads] at h; exact Except.noConfusion h
    | boolean b => simp only [unwrapLoop, json_loads] at h; exact Except.noConfusion h
    | number n => simp only [unwrapLoop, json_loads] at h; exact Except.noConfusion h
    | arr es => simp only [unwrapLoop, json_loads] at h; exact Except.noConfusion h
    | obj fs => simp only [unwrapLoop, json_loads] at h; exact Except.noConfusion h

/-- With `expected_type = None` and a string input the loop never raises:
re-decoding only happens while the current value is still a string, and
`json.loads` on a string raises at most the caught `JSONDecodeError`. -/
theorem unwrapLoop_none_of_string :
    ∀ (f : Nat) {v : JVal}, typeOf v = PyType.strT →
      ∃ out, unwrapLoop none f v = .ok out := by
  intro f
  induction f with
  | zero => intro v _; exact ⟨_, rfl⟩
  | succ f ih =>
    intro v hv
    cases v with
    | strEnc w =>
      by_cases ht : termPred none w = true
      · exact ⟨⟨true, w, 1⟩, by simp [unwrapLoop, json_loads, ht]⟩
      · have hw : typeOf w = PyType.strT := by
          simp only [termPred, Bool.not_eq_true', beq_eq_false_iff_ne, ne_eq,
            Decidable.not_not] at ht
          exact ht
        obtain ⟨out, hout⟩ := ih hw
        exact ⟨⟨out.status, out.data, out.loads + 1⟩,
          by simp [unwrapLoop, json_loads, ht, hout]⟩
    | strInvalid s =>
      exact ⟨⟨false, JVal.null, 1⟩, by simp [unwrapLoop, json_loads]⟩
    | null => simp [typeOf] at hv
    | boolean b => simp [typeOf] at hv
    | number n => simp [typeOf] at hv
    | arr es => simp [typeOf] at hv
    | obj fs => simp [typeOf] at hv

/-- Behaviour of the loop on an `n`-times string-encoded value (`n ≥ 1`,
innermost value not a string): with fuel at least `n` it succeeds after
exactly `n` decodes and returns the innermost value; with fuel below `n` it
exhausts the budget, doing one decode per fuel unit. -/
theorem unwrapLoop_nestEnc {v : JVal} (hv : ¬ typeOf v = PyType.strT) :
    ∀ (f n : Nat), 1 ≤ n →
      (n ≤ f → unwrapLoop none f (nestEnc n v) = .ok ⟨true, v, n⟩) ∧
      (f < n → unwrapLoop none f (nestEnc n v) = .ok ⟨false, JVal.null, f⟩) := by
  intro f
  induction f with
  | zero =>
    intro n hn
    exact ⟨fun h => absurd h (by omega), fun _ => rfl⟩
  | succ f ih =>
    intro n hn
    obtain ⟨m, rfl⟩ : ∃ m, n = m + 1 := ⟨n - 1, by omega⟩
    cases m with
    | zero =>
      refine ⟨fun _ => ?_, fun h => absurd h (by omega)⟩
      simp [nestEnc, unwrapLoop, json_loads, termPred_none_true hv]
    | succ k =>
      have hs : termPred none (nestEnc (k + 1) v) = false :=
        termPred_none_false (by simp [nestEnc, typeOf])
      have hih := ih (k + 1) (by omega)
      constructor
      · intro hle
        have h1 := hih.1 (by omega)
        show unwrapLoop none (f + 1) (JVal.strEnc (nestEnc (k + 1) v)) = _
        simp only [unwrapLoop, json_loads]
        rw [if_neg (by simp [hs]), h1]
      · intro hlt
        have h2 := hih.2 (by omega)
        show unwrapLoop none (f + 1) (JVal.strEnc (nestEnc (k + 1) v)) = _
        simp only [unwrapLoop, json_loads]
        rw [if_neg (by simp [hs]), h2]

/-- Unfolding of one Phase-2 pass when the fix computation raises. -/
theorem recordStep_eq_of_error {m : Int} {mk rep : Bool} {r : Record}
    {e : PyExn} (hc : computeFix rep m r.fieldValue = .error e) :
    recordStep m mk rep r = .error e := by
  unfold recordStep
  rw [hc]

/-- Unfolding of one Phase-2 pass when the fix computation returns
normally: the branch structure of lines 64-77. -/
theorem recordStep_eq_of_ok {m : Int} {mk rep : Bool} {r : Record}
    {out : UnwrapOut} (hc : computeFix rep m r.fieldValue = .ok out) :
    recordStep m mk rep r =
      if out.status then
        if mk then
          if r.updateOk then
            .ok (true, { r with fieldValue := out.data }, some (r.id, out.data))
          else
            .ok (false, r, some (r.id, out.data))
        else
          .ok (true, r, none)
      else
        .ok (false, r, none) := by
  unfold recordStep
  rw [hc]

/-- One Phase-2 pass never changes a record's identity. -/
theorem recordStep_id {m : Int} {mk rep : Bool} {r : Record} {b : Bool}
    {r2 : Record} {w : Option (Nat × JVal)}
    (h : recordStep m mk rep r = .ok (b, r2, w)) : r2.id = r.id := by
  cases hc : computeFix rep m r.fieldValue with
  | error e =>
    rw [recordStep_eq_of_error hc] at h
    exact Except.noConfusion h
  | ok out =>
    rw [recordStep_eq_of_ok hc] at h
    by_cases hs : out.status = true
    · rw [if_pos hs] at h
      cases mk with
      | false => rw [if_neg Bool.false_ne_true] at h; cases h; rfl
      | true =>
        rw [if_pos rfl] at h
        by_cases hu : r.updateOk = true
        · rw [if_pos hu] at h; cases h; rfl
        · rw [if_neg hu] at h; cases h; rfl
    · rw [if_neg hs] at h; cases h; rfl

/-- If the fix computation for a record returns normally, so does its
Phase-2 pass: every exceptional path apart from the fix computation itself
(the `RequestError` of the update call) is caught in the loop body. -/
theorem recordStep_ok {m : Int} {mk rep : Bool} {r : Record} {out : UnwrapOut}
    (hc : computeFix rep m r.fieldValue = .ok out) :
    ∃ b r2 w, recordStep m mk rep r = .ok (b, r2, w) := by
  rw [recordStep_eq_of_ok hc]
  by_cases hs : out.status = true
  · rw [if_pos hs]
    cases mk with
    | false => exact ⟨_, _, _, by rw [if_neg Bool.false_ne_true]⟩
    | true =>
      rw [if_pos rfl]
      by_cases hu : r.updateOk = true
      · exact ⟨_, _, _, by rw [if_pos hu]⟩
      · exact ⟨_, _, _, by rw [if_neg hu]⟩
  · exact ⟨_, _, _, by rw [if_neg hs]⟩

/-- Partition of the candidate list by the Phase-2 loop: when the loop runs
to completion, the identities in `updated ++ notUpdated` are a permutation
of the candidate identities, and each bucket preserves the candidate
order (is a sublist of the candidate identity list). -/
theorem processCandidates_partition {m : Int} {mk rep : Bool} :
    ∀ {cs u nu : List Record} {ws : List (Nat × JVal)},
      processCandidates m mk rep cs = .ok (u, nu, ws) →
      ((u ++ nu).map Record.id).Perm (cs.map Record.id) ∧
      (u.map Record.id).Sublist (cs.map Record.id) ∧
      (nu.map Record.id).Sublist (cs.map Record.id) := by
  intro cs
  induction cs with
  | nil =>
    intro u nu ws h
    cases h
    exact ⟨List.Perm.refl _, List.Sublist.refl _, List.Sublist.refl _⟩
  | cons r rest ih =>
    intro u nu ws h
    unfold processCandidates at h
    cases hstep : recordStep m mk rep r with
    | error e => rw [hstep] at h; exact Except.noConfusion h
    | ok x =>
      obtain ⟨b, r2, w⟩ := x
      rw [hstep] at h
      cases hrec : processCandidates m mk rep rest with
      | error e => rw [hrec] at h; exact Except.noConfusion h
      | ok y =>
        obtain ⟨u0, nu0, ws0⟩ := y
        rw [hrec] at h
        have hid : r2.id = r.id := recordStep_id hstep
        obtain ⟨hperm, hsubu, hsubnu⟩ := ih hrec
        cases b with
        | true =>
          simp only [if_pos] at h
          cases h
          refine ⟨?_, ?_, ?_⟩
          · simpa [hid] using hperm.cons r.id
          · simpa [hid] using hsubu.cons₂ r.id
          · exact hsubnu.cons r.id
        | false =>
          simp only [Bool.false_eq_true, if_neg, if_false] at h
          cases h
          refine ⟨?_, ?_, ?_⟩
          · refine List.Perm.trans ?_ (hperm.cons r.id)
            simp only [List.map_append, List.map_cons]
            rw [← hid]
            exact List.perm_middle
          · exact hsubu.cons r.id
          · simpa [hid] using hsubnu.cons₂ r.id

/-- Unfolding of the Phase-2 loop on a non-empty candidate list when both
the head pass and the rest of the loop return normally. -/
theorem processCandidates_cons_eq {m : Int} {mk rep : Bool} {r : Record}
    {rest : List Record} {b : Bool} {r2 : Record} {w : Option (Nat × JVal)}
    {u nu : List Record} {ws : List (Nat × JVal)}
    (hstep : recordStep m mk rep r = .ok (b, r2, w))
    (hrec : processCandidates m mk rep rest = .ok (u, nu, ws)) :
    processCandidates m mk rep (r :: rest) =
      if b then .ok (r2 :: u, nu, prependWrite w ws)
      else .ok (u, r2 :: nu, prependWrite w ws) := by
  unfold processCandidates
  rw [hstep, hrec]

/-- Unfolding of the Phase-2 loop when the head pass raises: the exception
aborts the whole loop. -/
theorem processCandidates_cons_error {m : Int} {mk rep : Bool} {r : Record}
    {rest : List Record} {e : PyExn}
    (hstep : recordStep m mk rep r = .error e) :
    processCandidates m mk rep (r :: rest) = .error e := by
  unfold processCandidates
  rw [hstep]

/-- The fix computation on a string-typed value never raises: the
empty-string branch returns directly, and with `expected_type = None` the
unwrap loop only ever feeds strings to `json.loads`. -/
theorem computeFix_ok_of_string {v : JVal} (hv : typeOf v = PyType.strT)
    {rep : Bool} {m : Int} : ∃ out, computeFix rep m v = .ok out := by
  unfold computeFix
  by_cases he : (isEmptyString v && rep) = true
  · rw [if_pos he]
    exact ⟨_, rfl⟩
  · rw [if_neg he]
    exact unwrapLoop_none_of_string m.toNat hv

/-- When every candidate's field value is a string, the Phase-2 loop runs
to completion (no uncaught exception). -/
theorem processCandidates_ok_of_strings {m : Int} {mk rep : Bool} :
    ∀ {cs : List Record}, (∀ r ∈ cs, typeOf r.fieldValue = PyType.strT) →
      ∃ res, processCandidates m mk rep cs = .ok res := by
  intro cs
  induction cs with
  | nil => intro _; exact ⟨_, rfl⟩
  | cons r rest ih =>
    intro hall
    obtain ⟨out, hc⟩ := computeFix_ok_of_string (hall r (List.mem_cons_self r rest))
    obtain ⟨b, r2, w, hstep⟩ := @recordStep_ok m mk rep r out hc
    obtain ⟨⟨u0, nu0, ws0⟩, hrec⟩ := ih (fun x hx => hall x (List.mem_cons_of_mem r hx))
    rw [processCandidates_cons_eq hstep hrec]
    cases b with
    | true => exact ⟨_, by rw [if_pos rfl]⟩
    | false => exact ⟨_, by rw [if_neg Bool.false_ne_true]⟩

/-- If every candidate's fix computation succeeds with a value whose type is
in `ets` and every candidate's write is accepted, the apply-mode loop puts
every candidate in `updated` (with the fixed value persisted) and none in
`notUpdated`. -/
theorem processCandidates_all_fixed {m : Int} {rep : Bool} {ets : List PyType} :
    ∀ {cs : List Record},
      (∀ r ∈ cs, (∃ out, computeFix rep m r.fieldValue = .ok out ∧
          out.status = true ∧ isinstanceOf out.data ets = true) ∧
        r.updateOk = true) →
      ∃ u ws, processCandidates m true rep cs = .ok (u, [], ws) ∧
        ∀ r2 ∈ u, isinstanceOf r2.fieldValue ets = true := by
  intro cs
  induction cs with
  | nil => intro _; exact ⟨[], [], rfl, by simp⟩
  | cons r rest ih =>
    intro hall
    obtain ⟨⟨out, hc, hs, hty⟩, hupd⟩ := hall r (List.mem_cons_self r rest)
    obtain ⟨u0, ws0, hrec, hu0⟩ := ih (fun x hx => hall x (List.mem_cons_of_mem r hx))
    have hstep : recordStep m true rep r =
        .ok (true, { r with fieldValue := out.data }, some (r.id, out.data)) := by
      rw [recordStep_eq_of_ok hc, if_pos hs, if_pos rfl, if_pos hupd]
    refine ⟨{ r with fieldValue := out.data } :: u0, (r.id, out.data) :: ws0, ?_, ?_⟩
    · rw [processCandidates_cons_eq hstep hrec, if_pos rfl]
      rfl
    · intro r2 hr2
      rcases List.mem_cons.mp hr2 with h | h
      · subst h; exact hty
      · exact hu0 r2 h

/-- A candidate whose Phase-2 pass reports the `updated` bucket ends up in
the `updated` list of the completed loop. -/
theorem processCandidates_mem_updated {m : Int} {mk rep : Bool} :
    ∀ {cs u nu : List Record} {ws : List (Nat × JVal)} {r r2 : Record}
      {w : Option (Nat × JVal)},
      processCandidates m mk rep cs = .ok (u, nu, ws) → r ∈ cs →
      recordStep m mk rep r = .ok (true, r2, w) → r2 ∈ u := by
  intro cs
  induction cs with
  | nil => intro u nu ws r r2 w _ hmem; cases hmem
  | cons x rest ih =>
    intro u nu ws r r2 w h hmem hstep
    cases hstepx : recordStep m mk rep x with
    | error e =>
      rw [processCandidates_cons_error hstepx] at h
      exact Except.noConfusion h
    | ok y =>
      obtain ⟨bx, x2, wx⟩ := y
      cases hrec : processCandidates m mk rep rest with
      | error e =>
        unfold processCandidates at h
        rw [hstepx, hrec] at h
        exact Except.noConfusion h
      | ok z =>
        obtain ⟨u0, nu0, ws0⟩ := z
        rw [processCandidates_cons_eq hstepx hrec] at h
        rcases List.mem_cons.mp hmem with heq | hmemr
        · subst heq
          rw [hstep] at hstepx
          cases hstepx
          rw [if_pos rfl] at h
          cases h
          exact List.mem_cons_self r2 u0
        · have hr2 : r2 ∈ u0 := ih hrec hmemr hstep
          cases bx with
          | true => rw [if_pos rfl] at h; cases h; exact List.mem_cons_of_mem x2 hr2
          | false => rw [if_neg Bool.false_ne_true] at h; cases h; exact hr2

/-- In dry-run mode the completed Phase-2 loop attempts no write, puts
exactly the candidates whose fix computation succeeds in `updated`
(unchanged), and the rest in `notUpdated` (unchanged). -/
theorem processCandidates_dry_run {m : Int} {rep : Bool} :
    ∀ {cs u nu : List Record} {ws : List (Nat × JVal)},
      processCandidates m false rep cs = .ok (u, nu, ws) →
      ws = [] ∧ u = cs.filter (fixSucceeds rep m) ∧
        nu = cs.filter (fun r => !(fixSucceeds rep m r)) := by
  intro cs
  induction cs with
  | nil =>
    intro u nu ws h
    cases h
    exact ⟨rfl, rfl, rfl⟩
  | cons r rest ih =>
    intro u nu ws h
    cases hc : computeFix rep m r.fieldValue with
    | error e =>
      rw [processCandidates_cons_error (recordStep_eq_of_error hc)] at h
      exact Except.noConfusion h
    | ok out =>
      have hfs : fixSucceeds rep m r = out.status := by
        unfold fixSucceeds
        rw [hc]
      cases hrec : processCandidates m false rep rest with
      | error e =>
        unfold processCandidates at h
        rw [recordStep_eq_of_ok hc] at h
        cases hs : out.status with
        | true => rw [if_pos hs, hrec] at h; exact Except.noConfusion h
        | false => rw [if_neg (by simp [hs]), hrec] at h; exact Except.noConfusion h
      | ok z =>
        obtain ⟨u0, nu0, ws0⟩ := z
        obtain ⟨hws0, hu0, hnu0⟩ := ih hrec
        cases hs : out.status with
        | true =>
          have hstep : recordStep m false rep r = .ok (true, r, none) := by
            rw [recordStep_eq_of_ok hc, if_pos hs, if_neg Bool.false_ne_true]
          rw [processCandidates_cons_eq hstep hrec, if_pos rfl] at h
          cases h
          refine ⟨hws0, ?_, ?_⟩
          · rw [List.filter_cons_of_pos (by simp [hfs, hs]), hu0]
          · rw [List.filter_cons_of_neg (by simp [hfs, hs]), hnu0]
        | false =>
          have hstep : recordStep m false rep r = .ok (false, r, none) := by
            rw [recordStep_eq_of_ok hc, if_neg (by simp [hs])]
          rw [processCandidates_cons_eq hstep hrec,
            if_neg Bool.false_ne_true] at h
          cases h
          refine ⟨hws0, ?_, ?_⟩
          · rw [List.filter_cons_of_neg (by simp [hfs, hs]), hu0]
          · rw [List.filter_cons_of_pos (by simp [hfs, hs]), hnu0]

/-! ## Claim theorems -/

/-- Claim C1, counterexample: Phase 2 does NOT pass `expected_types` to the
Unwrapper (line 63 calls `unwrap_actual_json` with `max_iterations` only),
so a candidate whose string decodes to a boolean is "fixed" to that boolean
— a value whose type is not in `expectedTypes` — contradicting the claim at
this concrete input. -/
theorem C1_counterexample :
    fix_netbox_json_field [⟨0, JVal.strEnc (JVal.boolean true), true⟩] 10 true
        defaultExpectedTypes false =
      .ok ([⟨0, JVal.boolean true, true⟩], [], [(0, JVal.boolean true)]) ∧
    isinstanceOf (JVal.boolean true) defaultExpectedTypes = false :=
  ⟨rfl, rfl⟩

/-- Claim C1, amended: Phase 2 invokes the Unwrapper with `expected_type`
left at its default `None`, so whenever the fix computation succeeds the
resulting fixed value is merely a non-string JSON value — possibly a number
or boolean, not necessarily of a type in `expectedTypes`. -/
theorem C1_fix_value_not_string {rep : Bool} {m : Int} {v : JVal}
    {out : UnwrapOut} (h : computeFix rep m v = .ok out)
    (hs : out.status = true) : ¬ typeOf out.data = PyType.strT := by
  unfold computeFix at h
  by_cases he : (isEmptyString v && rep) = true
  · rw [if_pos he] at h
    cases h
    simp [typeOf]
  · rw [if_neg he] at h
    exact unwrapLoop_none_status_not_string m.toNat h hs

/-- Claim C1, witness for the amended theorem at a concrete input. -/
theorem C1_witness :
    computeFix false 10 (JVal.strEnc (JVal.number 5)) =
      .ok ⟨true, JVal.number 5, 1⟩ ∧
    ¬ typeOf (JVal.number 5) = PyType.strT :=
  ⟨rfl, @C1_fix_value_not_string false 10 (JVal.strEnc (JVal.number 5))
    ⟨true, JVal.number 5, 1⟩ rfl rfl⟩

/-- Claim C2, counterexample: after an apply-mode run that "fixes" a record
whose string encodes the number 5, the persisted value is the number 5,
which classifies as a candidate again on the second run — the second-run
candidate set is not empty. -/
theorem C2_counterexample :
    fix_netbox_json_field [⟨0, JVal.strEnc (JVal.number 5), true⟩] 10 true
        defaultExpectedTypes false =
      .ok ([⟨0, JVal.number 5, true⟩], [], [(0, JVal.number 5)]) ∧
    ¬ nbobj_with_bad_value
        (recordsSkipped [⟨0, JVal.strEnc (JVal.number 5), true⟩]
            defaultExpectedTypes
          ++ [⟨0, JVal.number 5, true⟩]) defaultExpectedTypes = [] := by
  refine ⟨rfl, fun h => ?_⟩
  have h2 : ([⟨0, JVal.number 5, true⟩] : List Record) = [] := h
  exact List.cons_ne_nil _ _ h2

/-- Claim C2, amended: applying the repair twice in apply mode yields an
empty candidate set on the second run PROVIDED every candidate's fix
computation succeeds with a value whose type is in `expected_types` (and
every write is accepted); a candidate whose string encodes a number or
boolean is fixed to that value and re-classifies as a candidate instead. -/
theorem C2_idempotent_on_well_typed_fixes {recordset : List Record} {m : Int}
    {rep : Bool} {ets : List PyType}
    (h : ∀ r ∈ nbobj_with_bad_value recordset ets,
      (∃ out, computeFix rep m r.fieldValue = .ok out ∧ out.status = true ∧
        isinstanceOf out.data ets = true) ∧ r.updateOk = true) :
    ∃ u ws, fix_netbox_json_field recordset m true ets rep = .ok (u, [], ws) ∧
      nbobj_with_bad_value (recordsSkipped recordset ets ++ u) ets = [] := by
  obtain ⟨u, ws, hrun, hwell⟩ := processCandidates_all_fixed h
  refine ⟨u, ws, hrun, ?_⟩
  unfold nbobj_with_bad_value
  rw [List.filter_append]
  have h1 : (recordsSkipped recordset ets).filter
      (fun r => !(typeOf r.fieldValue == PyType.noneT
        || isinstanceOf r.fieldValue ets)) = [] := by
    rw [List.filter_eq_nil_iff]
    intro a ha
    unfold recordsSkipped at ha
    have := (List.mem_filter.mp ha).2
    simp [this]
  have h2 : u.filter
      (fun r => !(typeOf r.fieldValue == PyType.noneT
        || isinstanceOf r.fieldValue ets)) = [] := by
    rw [List.filter_eq_nil_iff]
    intro a ha
    simp [hwell a ha]
  rw [h1, h2]
  rfl

/-- Claim C2, witness for the amended theorem at a concrete input. -/
theorem C2_witness :
    ∃ u ws,
      fix_netbox_json_field [⟨0, JVal.strEnc (JVal.obj []), true⟩] 10 true
        defaultExpectedTypes false = .ok (u, [], ws) ∧
      nbobj_with_bad_value
        (recordsSkipped [⟨0, JVal.strEnc (JVal.obj []), true⟩]
            defaultExpectedTypes ++ u) defaultExpectedTypes = [] :=
  C2_idempotent_on_well_typed_fixes (by
    intro r hr
    have hr2 : r = ⟨0, JVal.strEnc (JVal.obj []), true⟩ := List.mem_singleton.mp hr
    subst hr2
    exact ⟨⟨⟨true, JVal.obj [], 1⟩, rfl, rfl, rfl⟩, rfl⟩)

/-- Claim C3, counterexample: a string encoding a value once (`N = 1`) with
`maxIterations = 1` satisfies `N ≥ maxIterations`, yet `unwrap` succeeds —
the claim's failure condition is off by one. -/
theorem C3_counterexample :
    (1 : Int) ≤ 1 ∧
    unwrap_actual_json (nestEnc 1 JVal.null) none 1 = .ok ⟨true, JVal.null, 1⟩ :=
  ⟨le_refl 1, rfl⟩

/-- Claim C3, amended: for a string that is a JSON value string-encoded
`N ≥ 1` times (innermost value not a string), `unwrap` succeeds and returns
the innermost value when `N ≤ maxIterations` (performing exactly `N`
decodes), and fails with the iteration-limit result `(False, None)` when
`N > maxIterations`. -/
theorem C3_unwrap_nested_bound (n : Nat) (v : JVal) (m : Int) (hn : 1 ≤ n)
    (hv : ¬ typeOf v = PyType.strT) :
    ((n : Int) ≤ m → unwrap_actual_json (nestEnc n v) none m =
      .ok ⟨true, v, n⟩) ∧
    (m < (n : Int) → unwrap_actual_json (nestEnc n v) none m =
      .ok ⟨false, JVal.null, m.toNat⟩) := by
  have h := unwrapLoop_nestEnc hv m.toNat n hn
  exact ⟨fun hm => h.1 (by omega), fun hm => h.2 (by omega)⟩

/-- Claim C3, witness for the amended theorem at a concrete input. -/
theorem C3_witness :
    unwrap_actual_json (nestEnc 2 (JVal.obj [])) none 2 =
      .ok ⟨true, JVal.obj [], 2⟩ :=
  (C3_unwrap_nested_bound 2 (JVal.obj []) 2 (by decide) (by decide)).1 (by decide)

/-- Claim C4, counterexample: a candidate whose field value is the number 5
(non-string, not well-typed) makes `json.loads` raise `TypeError`, which is
not caught — the whole batch aborts with the exception instead of the
record being placed in `notUpdated`. -/
theorem C4_counterexample :
    fix_netbox_json_field [⟨0, JVal.number 5, true⟩] 10 false
      defaultExpectedTypes false = .error PyExn.typeError := rfl

/-- Claim C4, amended: per-record failures ARE caught at the record
boundary — but only for string-valued candidates (decode failures and
iteration exhaustion become `notUpdated` placements, transport rejections
are caught as well): when every candidate's field value is a string, the
repair loop always runs to completion without an exception.  A candidate
holding a number or boolean instead raises an uncaught `TypeError` that
propagates out of the loop. -/
theorem C4_no_propagation_on_string_candidates {recordset : List Record}
    {m : Int} {mk rep : Bool} {ets : List PyType}
    (h : ∀ r ∈ nbobj_with_bad_value recordset ets,
      typeOf r.fieldValue = PyType.strT) :
    ∃ res, fix_netbox_json_field recordset m mk ets rep = .ok res :=
  processCandidates_ok_of_strings h

/-- Claim C4, witness for the amended theorem at a concrete input. -/
theorem C4_witness :
    ∃ res, fix_netbox_json_field [⟨0, JVal.strInvalid "not json at all", true⟩]
      10 false defaultExpectedTypes false = .ok res :=
  C4_no_propagation_on_string_candidates (by
    intro r hr
    have hr2 : r = ⟨0, JVal.strInvalid "not json at all", true⟩ :=
      List.mem_singleton.mp hr
    subst hr2
    rfl)

/-- Claim C5, counterexample: an input that is already a dict, with `dict`
as the expected type, does not succeed without a decode — `json.loads` is
attempted first and raises `TypeError` on the non-string argument. -/
theorem C5_counterexample :
    unwrap_actual_json (JVal.obj []) (some [PyType.dictT]) 10 =
      .error PyExn.typeError := rfl

/-- Claim C5, amended: `unwrap` always attempts a JSON decode first; on any
non-string input (including one that already has the expected type) with a
positive iteration budget it raises `TypeError` instead of returning
success.  Not decoding already-well-typed values is the driver's job:
Phase 1 never selects them as candidates. -/
theorem C5_nonstring_input_raises (v : JVal) (et : Option (List PyType))
    (m : Int) (hv : ¬ typeOf v = PyType.strT) (hm : 1 ≤ m) :
    unwrap_actual_json v et m = .error PyExn.typeError := by
  obtain ⟨k, hk⟩ : ∃ k, m.toNat = k + 1 := ⟨m.toNat - 1, by omega⟩
  show unwrapLoop et m.toNat v = _
  rw [hk]
  simp only [unwrapLoop]
  rw [json_loads_of_not_string hv]

/-- Claim C5, witness for the amended theorem at a concrete input. -/
theorem C5_witness :
    ¬ typeOf (JVal.arr []) = PyType.strT ∧ (1 : Int) ≤ 5 ∧
    unwrap_actual_json (JVal.arr []) none 5 = .error PyExn.typeError :=
  ⟨by decide, by decide,
    C5_nonstring_input_raises (JVal.arr []) none 5 (by decide) (by decide)⟩

/-- Claim C6, confirmed: when a run returns, the identities in
`updated ++ notUpdated` are a permutation of the candidate identities (the
partition is exhaustive, no record duplicated or dropped),
`|updated| + |notUpdated| = |candidates|`, and each bucket preserves the
Phase-1 candidate order (its identity list is a sublist of the candidate
identity list, which itself is in record-set order). -/
theorem C6_partition_invariant {recordset u nu : List Record}
    {ws : List (Nat × JVal)} {m : Int} {mk rep : Bool} {ets : List PyType}
    (h : fix_netbox_json_field recordset m mk ets rep = .ok (u, nu, ws)) :
    ((u ++ nu).map Record.id).Perm
      ((nbobj_with_bad_value recordset ets).map Record.id) ∧
    (u.map Record.id).Sublist
      ((nbobj_with_bad_value recordset ets).map Record.id) ∧
    (nu.map Record.id).Sublist
      ((nbobj_with_bad_value recordset ets).map Record.id) ∧
    u.length + nu.length = (nbobj_with_bad_value recordset ets).length := by
  obtain ⟨hperm, hsu, hsnu⟩ := processCandidates_partition h
  refine ⟨hperm, hsu, hsnu, ?_⟩
  have hlen := hperm.length_eq
  simpa using hlen

/-- Claim C6, witness at a concrete input (one fixable and one unfixable
candidate). -/
theorem C6_witness :
    (((([⟨0, JVal.strEnc JVal.null, true⟩] : List Record) ++
        ([⟨1, JVal.strInvalid "x", true⟩] : List Record)).map
        Record.id).Perm
      ((nbobj_with_bad_value
        [⟨0, JVal.strEnc JVal.null, true⟩, ⟨1, JVal.strInvalid "x", true⟩]
        defaultExpectedTypes).map Record.id)) ∧
    (([⟨0, JVal.strEnc JVal.null, true⟩] : List Record).map Record.id).Sublist
      ((nbobj_with_bad_value
        [⟨0, JVal.strEnc JVal.null, true⟩, ⟨1, JVal.strInvalid "x", true⟩]
        defaultExpectedTypes).map Record.id) ∧
    (([⟨1, JVal.strInvalid "x", true⟩] : List Record).map Record.id).Sublist
      ((nbobj_with_bad_value
        [⟨0, JVal.strEnc JVal.null, true⟩, ⟨1, JVal.strInvalid "x", true⟩]
        defaultExpectedTypes).map Record.id) ∧
    ([⟨0, JVal.strEnc JVal.null, true⟩] : List Record).length +
        ([⟨1, JVal.strInvalid "x", true⟩] : List Record).length =
      (nbobj_with_bad_value
        [⟨0, JVal.strEnc JVal.null, true⟩, ⟨1, JVal.strInvalid "x", true⟩]
        defaultExpectedTypes).length :=
  @C6_partition_invariant
    [⟨0, JVal.strEnc JVal.null, true⟩, ⟨1, JVal.strInvalid "x", true⟩]
    [⟨0, JVal.strEnc JVal.null, true⟩] [⟨1, JVal.strInvalid "x", true⟩] []
    10 false false defaultExpectedTypes rfl

/-- Claim C7, confirmed: for any string that is not valid JSON at the first
parse attempt and any positive iteration budget, `unwrap` returns the
failure result `(False, None)` after exactly one `json.loads` call
(`DecodeError` caught at lines 22-25), independent of `maxIterations`. -/
theorem C7_invalid_first_parse (s : String) (et : Option (List PyType))
    (m : Int) (hm : 1 ≤ m) :
    unwrap_actual_json (JVal.strInvalid s) et m = .ok ⟨false, JVal.null, 1⟩ := by
  obtain ⟨k, hk⟩ : ∃ k, m.toNat = k + 1 := ⟨m.toNat - 1, by omega⟩
  show unwrapLoop et m.toNat (JVal.strInvalid s) = _
  rw [hk]
  rfl

/-- Claim C7, witness at a concrete input. -/
theorem C7_witness :
    (1 : Int) ≤ 10 ∧
    unwrap_actual_json (JVal.strInvalid "not json at all") none 10 =
      .ok ⟨false, JVal.null, 1⟩ :=
  ⟨by decide, C7_invalid_first_parse "not json at all" none 10 (by decide)⟩

/-- Claim C8, confirmed: a candidate whose raw value is the empty string,
with `replace_empty_string_with_null` enabled, gets its fix computed as
null with zero `json.loads` calls, and ends in `updated` — with the null
value persisted when `make_changes` is true (given the write is accepted),
and unchanged in dry-run mode. -/
theorem C8_empty_string_to_null {recordset u nu : List Record}
    {ws : List (Nat × JVal)} {m : Int} {mk : Bool} {ets : List PyType}
    {r : Record}
    (hrun : fix_netbox_json_field recordset m mk ets true = .ok (u, nu, ws))
    (hmem : r ∈ nbobj_with_bad_value recordset ets)
    (hv : r.fieldValue = JVal.strInvalid "")
    (hupd : mk = true → r.updateOk = true) :
    computeFix true m r.fieldValue = .ok ⟨true, JVal.null, 0⟩ ∧
    (mk = true → { r with fieldValue := JVal.null } ∈ u) ∧
    (mk = false → r ∈ u) := by
  have hfix : computeFix true m r.fieldValue = .ok ⟨true, JVal.null, 0⟩ := by
    unfold computeFix
    rw [hv]
    rfl
  refine ⟨hfix, ?_, ?_⟩
  · intro hmk
    subst hmk
    have hstep : recordStep m true true r =
        .ok (true, { r with fieldValue := JVal.null }, some (r.id, JVal.null)) := by
      rw [recordStep_eq_of_ok hfix, if_pos rfl, if_pos rfl, if_pos (hupd rfl)]
    exact processCandidates_mem_updated hrun hmem hstep
  · intro hmk
    subst hmk
    have hstep : recordStep m false true r = .ok (true, r, none) := by
      rw [recordStep_eq_of_ok hfix, if_pos rfl, if_neg Bool.false_ne_true]
    exact processCandidates_mem_updated hrun hmem hstep

/-- Claim C8, witness at a concrete input (apply mode, write accepted). -/
theorem C8_witness :
    computeFix true 10 ((⟨0, JVal.strInvalid "", true⟩ : Record).fieldValue) =
      .ok ⟨true, JVal.null, 0⟩ ∧
    (true = true →
      ({ (⟨0, JVal.strInvalid "", true⟩ : Record) with fieldValue := JVal.null }
        : Record) ∈ ([⟨0, JVal.null, true⟩] : List Record)) ∧
    (true = false →
      (⟨0, JVal.strInvalid "", true⟩ : Record) ∈
        ([⟨0, JVal.null, true⟩] : List Record)) :=
  @C8_empty_string_to_null [⟨0, JVal.strInvalid "", true⟩]
    [⟨0, JVal.null, true⟩] [] [(0, JVal.null)] 10 true defaultExpectedTypes
    ⟨0, JVal.strInvalid "", true⟩ rfl (List.Mem.head _) rfl (fun _ => rfl)

/-- Claim C9, confirmed: in dry-run mode a completed run attempts no write
against the store (the write trace is empty, `Record.update` is never
invoked), and the buckets are exactly the candidates split by whether their
fix computation succeeds, in order and unchanged. -/
theorem C9_dry_run_no_writes {recordset u nu : List Record}
    {ws : List (Nat × JVal)} {m : Int} {rep : Bool} {ets : List PyType}
    (h : fix_netbox_json_field recordset m false ets rep = .ok (u, nu, ws)) :
    ws = [] ∧
    u = (nbobj_with_bad_value recordset ets).filter (fixSucceeds rep m) ∧
    nu = (nbobj_with_bad_value recordset ets).filter
      (fun r => !(fixSucceeds rep m r)) :=
  processCandidates_dry_run h

/-- Claim C9, witness at a concrete input: dry run with one fixable and one
unfixable candidate; `updated` and `notUpdated` have length 1 each and the
write trace is empty. -/
theorem C9_witness :
    ([] : List (Nat × JVal)) = [] ∧
    ([⟨0, JVal.strEnc JVal.null, true⟩] : List Record) =
      (nbobj_with_bad_value
        [⟨0, JVal.strEnc JVal.null, true⟩, ⟨1, JVal.strInvalid "x", true⟩]
        defaultExpectedTypes).filter (fixSucceeds false 10) ∧
    ([⟨1, JVal.strInvalid "x", true⟩] : List Record) =
      (nbobj_with_bad_value
        [⟨0, JVal.strEnc JVal.null, true⟩, ⟨1, JVal.strInvalid "x", true⟩]
        defaultExpectedTypes).filter (fun r => !(fixSucceeds false 10 r)) :=
  @C9_dry_run_no_writes
    [⟨0, JVal.strEnc JVal.null, true⟩, ⟨1, JVal.strInvalid "x", true⟩]
    [⟨0, JVal.strEnc JVal.null, true⟩] [⟨1, JVal.strInvalid "x", true⟩] []
    10 false defaultExpectedTypes rfl

/-- Claim C10, confirmed: with `max_iterations ≤ 0` the `while` loop body
never runs, so `unwrap_actual_json` returns `(False, None)` having made
zero `json.loads` calls, whatever the input value. -/
theorem C10_nonpositive_iterations (v : JVal) (et : Option (List PyType))
    (m : Int) (hm : m ≤ 0) :
    unwrap_actual_json v et m = .ok ⟨false, JVal.null, 0⟩ := by
  have h0 : m.toNat = 0 := by omega
  show unwrapLoop et m.toNat v = _
  rw [h0]
  rfl

/-- Claim C10, witness at a concrete input: a string that would decode in
one parse still yields the failure result with a non-positive budget. -/
theorem C10_witness :
    ((-2 : Int) ≤ 0) ∧
    unwrap_actual_json (JVal.strEnc JVal.null) none (-2) =
      .ok ⟨false, JVal.null, 0⟩ :=
  ⟨by decide,
    C10_nonpositive_iterations (JVal.strEnc JVal.null) none (-2) (by decide)⟩
